import Mathlib

/-!
Verification of the reconstruction utilities of SS-APACT
(`src/utils/reconstruction.py`) against their natural-language
specification.

Modelling conventions:
* numpy float arrays are modelled over `ℝ`; 1-D arrays as `List ℝ` or as
  functions `ℕ → ℝ` together with an explicit length, 2-D arrays as
  functions `ℕ → ℕ → ℝ` together with explicit shape numbers (mirroring
  numpy, where the shape is metadata next to the data buffer);
* `math.floor` is `Int.floor`, `np.sqrt` is `Real.sqrt`, `np.exp` is
  `Real.exp`, trigonometric functions are the `Real` ones;
* `raise NotImplementedError` is modelled by `Except.error`;
* python integer indices that may be compared against array bounds are
  kept as `ℤ` until the actual access converts them.
-/

open Real

open scoped Classical

noncomputable section

namespace Recon

/-- Model of `np.linspace(a, b, n)` (with the default `endpoint=True`):
`n` evenly spaced values `a + i * (b - a) / (n - 1)`.  For `n = 1` numpy
returns `[a]`, which the formula also yields here because division by zero
is zero in Lean. -/
def linspace (a b : ℝ) (n : ℕ) : List ℝ :=
  (List.range n).map fun i : ℕ => a + (i : ℝ) * (b - a) / ((n : ℝ) - 1)

/-- Model of `get_delays(R, v0, v1, n_delays, mode)`
(`src/utils/reconstruction.py`, lines 29-36).  The unsupported-mode branch
(`raise NotImplementedError()`) is modelled by `Except.error`. -/
def get_delays (R v0 v1 : ℝ) (n_delays : ℕ) (mode : String) :
    Except String (List ℝ) :=
  if mode = "uniform" then
    Except.ok (linspace ((1 - v0 / v1) * R * 0) ((1 - v0 / v1) * R * 1.2) n_delays)
  else if mode = "quadric" then
    Except.ok ((linspace 0 1 n_delays).map fun u => (1 - v0 / v1) * R * Real.sqrt u)
  else
    Except.error "NotImplementedError"

/-- `angle_transducer[k] = delta_angle * (k + 1)` with
`delta_angle = 2 * pi / N_transducer` (lines 59-60 of `delay_and_sum`). -/
def angle_transducer (N : ℕ) (k : ℕ) : ℝ :=
  2 * Real.pi / (N : ℝ) * ((k : ℝ) + 1)

/-- `x_transducer = R_ring * np.sin(angle_transducer - np.pi)` (line 61). -/
def x_transducer (R_ring : ℝ) (N k : ℕ) : ℝ :=
  R_ring * Real.sin (angle_transducer N k - Real.pi)

/-- `y_transducer = R_ring * np.cos(angle_transducer - np.pi)` (line 62). -/
def y_transducer (R_ring : ℝ) (N k : ℕ) : ℝ :=
  R_ring * Real.cos (angle_transducer N k - Real.pi)

/-- `distance_to_transducer[k]` for the grid point `(x, y)`:
`np.sqrt((x_transducer - x)**2 + (y_transducer - y)**2) - d_delay + ring_error`
(line 68 of `delay_and_sum`). -/
def distance_to_transducer (R_ring : ℝ) (N : ℕ) (x y d_delay : ℝ)
    (ring_error : ℕ → ℝ) (k : ℕ) : ℝ :=
  Real.sqrt ((x_transducer R_ring N k - x) ^ 2 + (y_transducer R_ring N k - y) ^ 2)
    - d_delay + ring_error k

/-- `id = math.floor(distance_to_transducer[k] / (v0 * T_sample))` (line 70). -/
def sample_id (v0 T_sample dist : ℝ) : ℤ :=
  ⌊dist / (v0 * T_sample)⌋

/-- The validity guard of line 71: `id > 0 and id <= pa_signal.shape[1]`. -/
def id_valid (id : ℤ) (num_samples : ℕ) : Prop :=
  0 < id ∧ id ≤ (num_samples : ℤ)

/-- The sample read `pa_signal[k, id]` performed on line 72 is inside the
bounds of row `k` exactly when `id` (a nonnegative integer there) is one of
the valid row indices `0 .. num_samples - 1`. -/
def row_index_in_bounds (id : ℤ) (num_samples : ℕ) : Prop :=
  id.toNat < num_samples

/-- `related_data[k]`: the guarded sample read of lines 70-74,
`pa_signal[k, id]` when the guard holds and `0.0` otherwise. -/
def related_data (pa_signal : ℕ → ℕ → ℝ) (num_samples : ℕ) (id : ℤ) (k : ℕ) : ℝ :=
  if id_valid id num_samples then pa_signal k id.toNat else 0

/-- The shape of the output array allocated by
`Image = np.zeros((len(x_vec), len(y_vec)))` (line 58 of `delay_and_sum`). -/
def das_shape (x_vec y_vec : List ℝ) : ℕ × ℕ :=
  (x_vec.length, y_vec.length)

/-- The loops of lines 66-75 execute `Image[t, s] = ...` for every
`s < len(x_vec)` and `t < len(y_vec)`; the write is inside the allocated
array iff `t` is below the first and `s` below the second component of
`das_shape`. -/
def das_writes_in_bounds (x_vec y_vec : List ℝ) : Prop :=
  ∀ s < x_vec.length, ∀ t < y_vec.length,
    t < (das_shape x_vec y_vec).1 ∧ s < (das_shape x_vec y_vec).2

/-- Model of the pixel values computed by `delay_and_sum`
(`src/utils/reconstruction.py`, lines 38-76): `Image[t, s]` is the mean over
all transducers `k` of the guarded sample reads `related_data[k]`, taken at
the grid point `(x_vec[s], y_vec[t])`. -/
def delay_and_sum (R_ring T_sample v0 : ℝ) (pa_signal : ℕ → ℕ → ℝ)
    (N_transducer num_samples : ℕ) (x_vec y_vec : List ℝ) (d_delay : ℝ)
    (ring_error : ℕ → ℝ) : ℕ → ℕ → ℝ := fun t s =>
  (∑ k in Finset.range N_transducer,
      related_data pa_signal num_samples
        (sample_id v0 T_sample
          (distance_to_transducer R_ring N_transducer (x_vec.getD s 0)
            (y_vec.getD t 0) d_delay ring_error k)) k) / (N_transducer : ℝ)

/-- Model of `get_r_C0(i, j, R, l, v0, v1)`
(`src/utils/reconstruction.py`, lines 92-96): maps grid indices to
`x = (j-12)*l/4`, `y = (12-i)*l/4`, `r = sqrt(x**2 + y**2)` and returns
`(r, np.maximum(0, (1-v0/v1)*R*(1 - r**2/(4*R**2))))`. -/
def get_r_C0 (i j : ℤ) (R l v0 v1 : ℝ) : ℝ × ℝ :=
  let x : ℝ := ((j : ℝ) - 12) * l / 4
  let y : ℝ := (12 - (i : ℝ)) * l / 4
  let r : ℝ := Real.sqrt (x ^ 2 + y ^ 2)
  (r, max 0 ((1 - v0 / v1) * R * (1 - r ^ 2 / (4 * R ^ 2))))

/-- Model of `get_fourier_params(r, phi, R, v0, v1)` (lines 99-104):
returns `(C0, C1, phi1, C2, phi2)` with
`C0 = (1-v0/v1)*R*(1 - r**2/(4*R**2))`, `C1 = (1-v0/v1)*r`,
`C2 = (1-v0/v1)*r**2/(4*R)`, `phi1 = phi2 = phi`. -/
def get_fourier_params (r phi R v0 v1 : ℝ) : ℝ × ℝ × ℝ × ℝ × ℝ :=
  ((1 - v0 / v1) * R * (1 - r ^ 2 / (4 * R ^ 2)),
   (1 - v0 / v1) * r,
   phi,
   (1 - v0 / v1) * r ^ 2 / (4 * R),
   phi)

/-- Model of `wavefront_fourier(C0, C1, phi1, C2, phi2)` (lines 107-108):
the returned callable `theta ↦ C0 + C1*cos(theta-phi1) + C2*cos(2*(theta-phi2))`. -/
def wavefront_fourier (C0 C1 phi1 C2 phi2 : ℝ) : ℝ → ℝ := fun theta =>
  C0 + C1 * Real.cos (theta - phi1) + C2 * Real.cos (2 * (theta - phi2))

/-- Model of `wavefront_real(R, r, phi, v0, v1)` (lines 111-115).  The
boolean factor `(torch.cos(phi-theta) >= 0)` of the outside branch is the
indicator `if 0 ≤ cos (phi - theta) then 1 else 0`, and
`torch.maximum(expr, zeros)` is `max expr 0`. -/
def wavefront_real (R r phi v0 v1 : ℝ) : ℝ → ℝ :=
  if r < R then
    fun theta => (1 - v0 / v1) *
      (Real.sqrt (R ^ 2 - (r * Real.sin (theta - phi)) ^ 2) + r * Real.cos (theta - phi))
  else
    fun theta => (1 - v0 / v1) * 2 *
      Real.sqrt (max (R ^ 2 - (r * Real.sin (theta - phi)) ^ 2) 0) *
      (if 0 ≤ Real.cos (phi - theta) then 1 else 0)

/-- The `attention == 'euclidean'` branch of `get_weights` (lines 166-169)
under numpy broadcasting, for a `C0` argument that is an array of shape
`(H, W)` (a scalar `C0` is the special case `H = W = 1` of a constant
field).  `distance = (delays.reshape([n,1,1]) - C0)**2` broadcasts to shape
`[n, H, W]`; the two `.sum()` normalizations (`np.exp(distance).sum()` and
`weights.sum()`) sum over ALL axes, yielding scalars. -/
def euclidean_weights (C0 : ℕ → ℕ → ℝ) (H W : ℕ) (delays : List ℝ) :
    ℕ → ℕ → ℕ → ℝ := fun k i j =>
  let n := delays.length
  let distance : ℕ → ℕ → ℕ → ℝ := fun k i j => (delays.getD k 0 - C0 i j) ^ 2
  let S := ∑ a in Finset.range n, ∑ b in Finset.range H, ∑ c in Finset.range W,
    Real.exp (distance a b c)
  let weights : ℕ → ℕ → ℕ → ℝ := fun k i j => Real.exp (distance k i j) / S
  let total := ∑ a in Finset.range n, ∑ b in Finset.range H, ∑ c in Finset.range W,
    weights a b c
  weights k i j / total * (n : ℝ)

/-- Model of `np.argmin` on a 1-D array: the index of the first occurrence
of the minimum value (numpy: "In case of multiple occurrences of the minimum
values, the indices corresponding to the first occurrence are returned"),
i.e. the first index whose element is `≤` every element of the list. -/
def np_argmin (xs : List ℝ) : ℕ :=
  xs.findIdx fun x => decide (∀ y ∈ xs, x ≤ y)

/-- The `attention == 'onehot'` branch of `get_weights` (lines 170-173) for
the documented scalar `C0`: `weights[np.argmin(np.abs(delays - C0))] = 1` on
an all-zero array (the trailing singleton axes of `[n_delays, 1, 1]` are
dropped). -/
def onehot_weights (C0 : ℝ) (delays : List ℝ) : ℕ → ℝ := fun k =>
  if k = np_argmin (delays.map fun d => |d - C0|) then 1 else 0

/-- Model of `get_weights(C0, delays, attention)`
(`src/utils/reconstruction.py`, lines 148-175) for the documented scalar
`C0` (`C0 (float)` in the docstring), with the branch order of the source
(`uniform`, `euclidean`, `onehot`, else `raise NotImplementedError`).  The
`[n_delays, 1, 1]`-shaped results are modelled as functions of the delay
index `k` (the trailing axes are singletons). -/
def get_weights (C0 : ℝ) (delays : List ℝ) (attention : String) :
    Except String (ℕ → ℝ) :=
  if attention = "uniform" then
    Except.ok fun _ => 1
  else if attention = "euclidean" then
    Except.ok fun k => euclidean_weights (fun _ _ => C0) 1 1 delays k 0 0
  else if attention = "onehot" then
    Except.ok (onehot_weights C0 delays)
  else
    Except.error "Attention type not implemented."

/-- For the grid point at the ring center `(0, 0)` with zero delay and zero
ring error, the distance to every transducer is `R_ring` (for `R_ring ≥ 0`),
since the transducer positions lie on the circle of radius `R_ring`. -/
theorem distance_center (R_ring : ℝ) (hR : 0 ≤ R_ring) (N k : ℕ) :
    distance_to_transducer R_ring N 0 0 0 (fun _ => 0) k = R_ring := by
  unfold distance_to_transducer x_transducer y_transducer
  rw [sub_zero, sub_zero, sub_zero, add_zero]
  rw [mul_pow, mul_pow, ← mul_add, Real.sin_sq_add_cos_sq, mul_one]
  exact Real.sqrt_sq hR

/-- Claim C10: the `C0` returned by `get_r_C0` is nonnegative, equals
`max 0 ((1-v0/v1)*R*(1 - r^2/(4*R^2)))` at the mapped point, and agrees with
the `C0` coefficient of `get_fourier_params` at that point exactly when that
closed-form expression is nonnegative (it is clamped to `0` otherwise). -/
theorem get_r_C0_spec (i j : ℤ) (R l v0 v1 phi : ℝ) :
    0 ≤ (get_r_C0 i j R l v0 v1).2 ∧
    (get_r_C0 i j R l v0 v1).2
      = max 0 ((1 - v0 / v1) * R * (1 - (get_r_C0 i j R l v0 v1).1 ^ 2 / (4 * R ^ 2))) ∧
    ((get_r_C0 i j R l v0 v1).2
        = (get_fourier_params (get_r_C0 i j R l v0 v1).1 phi R v0 v1).1
      ↔ 0 ≤ (get_fourier_params (get_r_C0 i j R l v0 v1).1 phi R v0 v1).1) := by
  refine ⟨?_, rfl, ?_⟩
  · simp only [get_r_C0]
    exact le_max_left _ _
  · simp only [get_r_C0, get_fourier_params]
    exact max_eq_right_iff

/-- Witness for C10 at `i = j = 0`, `R = l = 1`, `v0 = 1`, `v1 = 2`,
`phi = 0`. -/
theorem get_r_C0_spec_witness :
    0 ≤ (get_r_C0 0 0 1 1 1 2).2 ∧
    (get_r_C0 0 0 1 1 1 2).2
      = max 0 ((1 - 1 / 2) * 1 * (1 - (get_r_C0 0 0 1 1 1 2).1 ^ 2 / (4 * 1 ^ 2))) ∧
    ((get_r_C0 0 0 1 1 1 2).2 = (get_fourier_params (get_r_C0 0 0 1 1 1 2).1 0 1 1 2).1
      ↔ 0 ≤ (get_fourier_params (get_r_C0 0 0 1 1 1 2).1 0 1 1 2).1) :=
  get_r_C0_spec 0 0 1 1 1 2 0

/-- Claim C7: `get_delays` fails with an unsupported-mode error exactly for
mode strings other than uniform and quadric, and `get_weights` fails with
an unsupported-attention error exactly for attention strings other than
uniform, onehot and euclidean; in both cases the error is returned instead
of a value. -/
theorem selectors_error_iff :
    (∀ (R v0 v1 : ℝ) (n : ℕ) (mode : String),
        (∃ e, get_delays R v0 v1 n mode = Except.error e) ↔
          mode ≠ "uniform" ∧ mode ≠ "quadric") ∧
    (∀ (C0 : ℝ) (delays : List ℝ) (attention : String),
        (∃ e, get_weights C0 delays attention = Except.error e) ↔
          attention ≠ "uniform" ∧ attention ≠ "onehot" ∧ attention ≠ "euclidean") := by
  constructor
  · intro R v0 v1 n mode
    unfold get_delays
    split_ifs with h1 h2 <;> simp_all
  · intro C0 delays attention
    unfold get_weights
    split_ifs with h1 h2 h3 <;> simp_all

/-- Witness for C7 at the unrecognized selector strings cubic and softmax
and at the recognized ones. -/
theorem selectors_error_iff_witness :
    ((∃ e, get_delays 1 1 2 2 "cubic" = Except.error e) ↔
      ("cubic" : String) ≠ "uniform" ∧ ("cubic" : String) ≠ "quadric") ∧
    ((∃ e, get_weights 0 [0] "softmax" = Except.error e) ↔
      ("softmax" : String) ≠ "uniform" ∧ ("softmax" : String) ≠ "onehot" ∧
        ("softmax" : String) ≠ "euclidean") :=
  ⟨selectors_error_iff.1 1 1 2 2 "cubic", selectors_error_iff.2 0 [0] "softmax"⟩

/-- Claim C9: for every geometry, an all-zero sinogram yields an all-zero
image from `delay_and_sum`. -/
theorem das_zero_sinogram (R_ring T_sample v0 : ℝ) (pa_signal : ℕ → ℕ → ℝ)
    (N_transducer num_samples : ℕ) (x_vec y_vec : List ℝ) (d_delay : ℝ)
    (ring_error : ℕ → ℝ) (hT : 0 < T_sample) (hv : 0 < v0)
    (hzero : ∀ k i, pa_signal k i = 0) :
    ∀ t s, delay_and_sum R_ring T_sample v0 pa_signal N_transducer num_samples
      x_vec y_vec d_delay ring_error t s = 0 := by
  intro t s
  unfold delay_and_sum
  rw [Finset.sum_eq_zero, zero_div]
  intro k _
  unfold related_data
  split_ifs with h
  · exact hzero _ _
  · rfl

/-- Witness for C9 at a concrete geometry and the all-zero sinogram. -/
theorem das_zero_sinogram_witness :
    delay_and_sum 1 1 1 (fun _ _ => 0) 1 1 [0] [0] 0 (fun _ => 0) 0 0 = 0 :=
  das_zero_sinogram 1 1 1 (fun _ _ => 0) 1 1 [0] [0] 0 (fun _ => 0)
    (by norm_num) (by norm_num) (fun _ _ => rfl) 0 0

/-- Claim C4: at `theta = phi` the truncated Fourier wavefront model built
from `get_fourier_params` and the exact model `wavefront_real` agree for
points inside the circle, both equal to `(1 - v0/v1) * (R + r)`. -/
theorem wavefront_models_agree (R v0 v1 r phi : ℝ) (hR : 0 < R) (hv0 : 0 < v0)
    (hv1 : 0 < v1) (hr0 : 0 ≤ r) (hrR : r < R) :
    wavefront_fourier (get_fourier_params r phi R v0 v1).1
        (get_fourier_params r phi R v0 v1).2.1
        (get_fourier_params r phi R v0 v1).2.2.1
        (get_fourier_params r phi R v0 v1).2.2.2.1
        (get_fourier_params r phi R v0 v1).2.2.2.2 phi
      = (1 - v0 / v1) * (R + r) ∧
    wavefront_real R r phi v0 v1 phi = (1 - v0 / v1) * (R + r) := by
  have hRne : R ≠ 0 := hR.ne'
  constructor
  · simp only [wavefront_fourier, get_fourier_params, sub_self, mul_zero,
      Real.cos_zero, mul_one]
    field_simp
    ring
  · unfold wavefront_real
    rw [if_pos hrR]
    simp only [sub_self, Real.sin_zero, Real.cos_zero, mul_zero, mul_one]
    rw [zero_pow two_ne_zero, sub_zero, Real.sqrt_sq hR.le]

/-- Witness for C4 at `R = 1`, `r = 0`, `phi = 0`, `v0 = 1`, `v1 = 2`. -/
theorem wavefront_models_agree_witness :
    wavefront_fourier (get_fourier_params 0 0 1 1 2).1
        (get_fourier_params 0 0 1 1 2).2.1
        (get_fourier_params 0 0 1 1 2).2.2.1
        (get_fourier_params 0 0 1 1 2).2.2.2.1
        (get_fourier_params 0 0 1 1 2).2.2.2.2 0
      = (1 - 1 / 2) * (1 + 0) ∧
    wavefront_real 1 0 0 1 2 0 = (1 - 1 / 2) * (1 + 0) :=
  wavefront_models_agree 1 1 2 0 0 (by norm_num) (by norm_num) (by norm_num)
    (by norm_num) (by norm_num)

/-- Claim C1 (code-bug evidence): `delay_and_sum` allocates
`Image = np.zeros((len(x_vec), len(y_vec)))`, i.e. the transpose of the
claimed and documented `(len(y_vec), len(x_vec))` shape, and whenever the
two grid vectors have different lengths the assignment `Image[t, s]` indexes
outside the allocated array.  Concrete failing input: `x_vec` of length 2,
`y_vec` of length 1. -/
theorem das_shape_mismatch :
    das_shape [0, 1] [0] ≠ ((([0] : List ℝ).length, ([0, 1] : List ℝ).length)) ∧
    ¬ das_writes_in_bounds [0, 1] [0] := by
  constructor
  · simp [das_shape]
  · intro h
    have h2 := (h 1 (by norm_num) 0 (by norm_num)).2
    simp [das_shape] at h2

/-- Claim C2 (code-bug evidence): with `R_ring = 1`, `v0 = T_sample = 1`,
zero delay and ring error, and the grid point at the ring center, the
computed sample index is `1`; with `num_samples = 1` it passes the validity
guard `id > 0 and id <= pa_signal.shape[1]` of line 71, yet the read
`pa_signal[k, id]` of line 72 is outside the row bounds `0 .. num_samples-1`. -/
theorem guarded_read_out_of_bounds :
    id_valid (sample_id 1 1 (distance_to_transducer 1 1 0 0 0 (fun _ => 0) 0)) 1 ∧
    ¬ row_index_in_bounds
        (sample_id 1 1 (distance_to_transducer 1 1 0 0 0 (fun _ => 0) 0)) 1 := by
  have hd : distance_to_transducer 1 1 0 0 0 (fun _ => 0) 0 = 1 :=
    distance_center 1 (by norm_num) 1 0
  have hid : sample_id 1 1 (distance_to_transducer 1 1 0 0 0 (fun _ => 0) 0) = 1 := by
    rw [hd]
    unfold sample_id
    norm_num
  rw [hid]
  constructor
  · exact ⟨by norm_num, by norm_num⟩
  · unfold row_index_in_bounds
    norm_num

/-- Claim C5 (counterexample): for a negative radius `R = -1` (the claim
quantifies over every `R`) the output of `get_delays` in uniform mode is
`[0, -0.6]`, which is not sorted ascending. -/
theorem get_delays_uniform_unsorted_neg_R :
    get_delays (-1) 1 2 2 "uniform" = Except.ok [(0 : ℝ), -0.6] ∧
    ¬ ([(0 : ℝ), -0.6] : List ℝ).Sorted (· ≤ ·) := by
  constructor
  · have hr : List.range 2 = [0, 1] := rfl
    simp only [get_delays, if_pos rfl, linspace, hr, List.map_cons, List.map_nil]
    norm_num
  · simp only [List.sorted_cons, List.mem_singleton, forall_eq]
    intro h
    have := h.1
    norm_num at this

/-- Claim C5 (amended): for `R > 0`, `0 < v0 < v1` and `n_delays ≥ 2`,
`get_delays` in uniform mode returns exactly `n_delays` values sorted
ascending, with first element `0` and last element `1.2 * (1 - v0/v1) * R`. -/
theorem get_delays_uniform_spec (R v0 v1 : ℝ) (n : ℕ) (hR : 0 < R)
    (hv0 : 0 < v0) (hvv : v0 < v1) (hn : 2 ≤ n) :
    ∃ l, get_delays R v0 v1 n "uniform" = Except.ok l ∧ l.length = n ∧
      l.Sorted (· ≤ ·) ∧ l.getD 0 0 = 0 ∧
      l.getD (n - 1) 0 = 1.2 * (1 - v0 / v1) * R := by
  have hv1 : 0 < v1 := lt_trans hv0 hvv
  have hlt1 : v0 / v1 < 1 := (div_lt_one hv1).mpr hvv
  have hcpos : 0 < (1 - v0 / v1) * R := by nlinarith
  have hd : (0 : ℝ) < (n : ℝ) - 1 := by
    have : (2 : ℝ) ≤ (n : ℝ) := by exact_mod_cast hn
    linarith
  refine ⟨linspace ((1 - v0 / v1) * R * 0) ((1 - v0 / v1) * R * 1.2) n,
    by simp [get_delays], ?_, ?_, ?_, ?_⟩
  · simp [linspace]
  · have hs : ((List.range n).map fun i : ℕ =>
        (1 - v0 / v1) * R * 0 + (i : ℝ) *
          ((1 - v0 / v1) * R * 1.2 - (1 - v0 / v1) * R * 0) / ((n : ℝ) - 1)).Pairwise
        (· ≤ ·) := by
      refine List.Pairwise.map _ ?_ (List.pairwise_lt_range n)
      intro a b hab
      have hstep : 0 ≤ ((1 - v0 / v1) * R * 1.2 - (1 - v0 / v1) * R * 0) / ((n : ℝ) - 1) := by
        apply div_nonneg _ hd.le
        nlinarith
      have hcast : (a : ℝ) ≤ (b : ℝ) := by exact_mod_cast hab.le
      have := mul_le_mul_of_nonneg_right hcast hstep
      rw [← mul_div_assoc, ← mul_div_assoc] at this
      linarith
    exact hs
  · have h0 : 0 < n := by omega
    rw [linspace, List.getD_eq_getElem?_getD, List.getElem?_map, List.getElem?_range h0]
    norm_num
  · have h1 : n - 1 < n := by omega
    rw [linspace, List.getD_eq_getElem?_getD, List.getElem?_map, List.getElem?_range h1]
    have hcast : ((n - 1 : ℕ) : ℝ) = (n : ℝ) - 1 := by
      have : 1 ≤ n := by omega
      push_cast [this]
      ring
    simp only [Option.map_some', Option.getD_some, hcast]
    field_simp
    ring

/-- Witness for the amended C5 at `R = 1`, `v0 = 1`, `v1 = 2`, `n = 2`. -/
theorem get_delays_uniform_spec_witness :
    ∃ l, get_delays 1 1 2 2 "uniform" = Except.ok l ∧ l.length = 2 ∧
      l.Sorted (· ≤ ·) ∧ l.getD 0 0 = 0 ∧
      l.getD (2 - 1) 0 = 1.2 * (1 - 1 / 2) * 1 :=
  get_delays_uniform_spec 1 1 2 2 (by norm_num) (by norm_num) (by norm_num)
    (by norm_num)

/-- Claim C6: for `R > 0`, `0 < v0 < v1` and `n_delays ≥ 2`, mapping the
quadric-mode delays through `d ↦ (d / ((1 - v0/v1) * R))^2` reproduces the
uniform grid `linspace 0 1 n_delays`. -/
theorem get_delays_quadric_roundtrip (R v0 v1 : ℝ) (n : ℕ) (hR : 0 < R)
    (hv0 : 0 < v0) (hvv : v0 < v1) (hn : 2 ≤ n) :
    ∃ l, get_delays R v0 v1 n "quadric" = Except.ok l ∧
      l.map (fun d => (d / ((1 - v0 / v1) * R)) ^ 2) = linspace 0 1 n := by
  have hv1 : 0 < v1 := lt_trans hv0 hvv
  have hlt1 : v0 / v1 < 1 := (div_lt_one hv1).mpr hvv
  have hc : (1 - v0 / v1) * R ≠ 0 := by
    have : 0 < (1 - v0 / v1) * R := by nlinarith
    exact this.ne'
  have hd : (0 : ℝ) < (n : ℝ) - 1 := by
    have : (2 : ℝ) ≤ (n : ℝ) := by exact_mod_cast hn
    linarith
  refine ⟨(linspace 0 1 n).map fun u => (1 - v0 / v1) * R * Real.sqrt u,
    by simp [get_delays], ?_⟩
  rw [List.map_map]
  have hpt : ∀ u ∈ linspace 0 1 n,
      (((1 - v0 / v1) * R * Real.sqrt u) / ((1 - v0 / v1) * R)) ^ 2 = u := by
    intro u hu
    have hu0 : 0 ≤ u := by
      simp only [linspace, List.mem_map, List.mem_range] at hu
      obtain ⟨i, hi, rfl⟩ := hu
      have : 0 ≤ (i : ℝ) * (1 - 0) / ((n : ℝ) - 1) :=
        div_nonneg (by positivity) hd.le
      linarith
    rw [mul_div_cancel_left₀ _ hc, Real.sq_sqrt hu0]
  calc ((linspace 0 1 n).map fun u =>
        (((1 - v0 / v1) * R * Real.sqrt u) / ((1 - v0 / v1) * R)) ^ 2)
      = (linspace 0 1 n).map id := List.map_congr_left hpt
    _ = linspace 0 1 n := List.map_id _

/-- Witness for C6 at `R = 1`, `v0 = 1`, `v1 = 2`, `n = 2`. -/
theorem get_delays_quadric_roundtrip_witness :
    ∃ l, get_delays 1 1 2 2 "quadric" = Except.ok l ∧
      l.map (fun d => (d / ((1 - 1 / 2) * 1)) ^ 2) = linspace 0 1 2 :=
  get_delays_quadric_roundtrip 1 1 2 2 (by norm_num) (by norm_num) (by norm_num)
    (by norm_num)

/-- Closed form of the euclidean branch for a scalar (constant, `1 × 1`)
`C0` field: the broadcast sums collapse to sums over the delay axis. -/
theorem euclidean_weights_scalar_eq (c : ℝ) (delays : List ℝ) (k : ℕ) :
    euclidean_weights (fun _ _ => c) 1 1 delays k 0 0
      = Real.exp ((delays.getD k 0 - c) ^ 2) /
            (∑ a in Finset.range delays.length, Real.exp ((delays.getD a 0 - c) ^ 2)) /
          (∑ a in Finset.range delays.length,
            Real.exp ((delays.getD a 0 - c) ^ 2) /
              (∑ b in Finset.range delays.length, Real.exp ((delays.getD b 0 - c) ^ 2))) *
        (delays.length : ℝ) := by
  simp only [euclidean_weights, Finset.sum_range_one]

/-- Claim C3 (amended): for a scalar `C0` (the documented `float` contract),
the euclidean attention weights are strictly positive and sum to `n_delays`
along the delay axis. -/
theorem euclidean_weights_scalar_spec (c : ℝ) (delays : List ℝ) :
    (∀ k < delays.length, 0 < euclidean_weights (fun _ _ => c) 1 1 delays k 0 0) ∧
    (∑ k in Finset.range delays.length, euclidean_weights (fun _ _ => c) 1 1 delays k 0 0)
      = (delays.length : ℝ) := by
  rcases Nat.eq_zero_or_pos delays.length with h0 | hpos
  · constructor
    · intro k hk
      rw [h0] at hk
      exact absurd hk (Nat.not_lt_zero k)
    · rw [h0]
      simp
  · have hS : 0 < ∑ a in Finset.range delays.length,
        Real.exp ((delays.getD a 0 - c) ^ 2) :=
      Finset.sum_pos (fun i _ => Real.exp_pos _) (Finset.nonempty_range_iff.mpr hpos.ne')
    have htot : (∑ a in Finset.range delays.length,
        Real.exp ((delays.getD a 0 - c) ^ 2) /
          (∑ b in Finset.range delays.length, Real.exp ((delays.getD b 0 - c) ^ 2))) = 1 := by
      rw [← Finset.sum_div]
      exact div_self hS.ne'
    have hw : ∀ k, euclidean_weights (fun _ _ => c) 1 1 delays k 0 0
        = Real.exp ((delays.getD k 0 - c) ^ 2) /
            (∑ a in Finset.range delays.length, Real.exp ((delays.getD a 0 - c) ^ 2)) *
          (delays.length : ℝ) := by
      intro k
      rw [euclidean_weights_scalar_eq, htot, div_one]
    have hnpos : (0 : ℝ) < (delays.length : ℝ) := by exact_mod_cast hpos
    constructor
    · intro k hk
      rw [hw k]
      exact mul_pos (div_pos (Real.exp_pos _) hS) hnpos
    · rw [Finset.sum_congr rfl fun k _ => hw k, ← Finset.sum_mul, ← Finset.sum_div,
        div_self hS.ne', one_mul]

/-- Witness for the amended C3 at `C0 = 0` and `delays = [0, 1]`. -/
theorem euclidean_weights_scalar_spec_witness :
    (∀ k < ([0, 1] : List ℝ).length,
      0 < euclidean_weights (fun _ _ => (0 : ℝ)) 1 1 [0, 1] k 0 0) ∧
    (∑ k in Finset.range ([0, 1] : List ℝ).length,
        euclidean_weights (fun _ _ => (0 : ℝ)) 1 1 [0, 1] k 0 0)
      = (([0, 1] : List ℝ).length : ℝ) :=
  euclidean_weights_scalar_spec 0 [0, 1]

/-- Claim C3 (counterexample): for the per-pixel `C0` field `[[0, 1]]` of
shape `(1, 2)` and the single delay `[0]`, the per-pixel sum of the
euclidean weights along the delay axis at pixel `(0, 0)` is
`1 / (1 + exp 1)`, not `n_delays = 1`: the two `.sum()` normalizations are
global over all pixels, not per pixel. -/
theorem euclidean_weights_field_sum_ne :
    (∑ k in Finset.range ([0] : List ℝ).length,
        euclidean_weights (fun _ j => (j : ℝ)) 1 2 [0] k 0 0)
      ≠ ((([0] : List ℝ).length : ℕ) : ℝ) := by
  have hcalc : (∑ k in Finset.range ([0] : List ℝ).length,
      euclidean_weights (fun _ j => (j : ℝ)) 1 2 [0] k 0 0)
      = 1 / (1 + Real.exp 1) := by
    simp only [euclidean_weights, List.length_singleton, Finset.sum_range_one,
      Finset.sum_range_succ, List.getD]
    norm_num [Real.exp_zero]
    have h1 : (1 : ℝ) + Real.exp 1 ≠ 0 := by positivity
    field_simp
  rw [hcalc]
  have he : (0 : ℝ) < Real.exp 1 := Real.exp_pos 1
  have hlt : 1 / (1 + Real.exp 1) < 1 := by
    rw [div_lt_one (by linarith)]
    linarith
  simp only [List.length_singleton, Nat.cast_one]
  exact ne_of_lt hlt

/-- Every nonempty list of reals has a member that is a lower bound of the
list. -/
theorem exists_min_mem (xs : List ℝ) (h : xs ≠ []) :
    ∃ x ∈ xs, ∀ y ∈ xs, x ≤ y := by
  induction xs with
  | nil => exact absurd rfl h
  | cons a t ih =>
    rcases eq_or_ne t [] with rfl | ht
    · refine ⟨a, List.mem_cons_self a [], ?_⟩
      intro y hy
      rw [List.mem_singleton] at hy
      rw [hy]
    · obtain ⟨m, hm, hmin⟩ := ih ht
      rcases le_total a m with hca | hca
      · refine ⟨a, List.mem_cons_self a t, ?_⟩
        intro y hy
        rcases List.mem_cons.mp hy with rfl | hyt
        · exact le_refl y
        · exact le_trans hca (hmin y hyt)
      · refine ⟨m, List.mem_cons_of_mem a hm, ?_⟩
        intro y hy
        rcases List.mem_cons.mp hy with rfl | hyt
        · exact hca
        · exact hmin y hyt

/-- `np_argmin` of a nonempty list is a valid index. -/
theorem np_argmin_lt_length (xs : List ℝ) (h : xs ≠ []) :
    np_argmin xs < xs.length := by
  apply List.findIdx_lt_length_of_exists
  obtain ⟨x, hx, hmin⟩ := exists_min_mem xs h
  exact ⟨x, hx, by simpa using hmin⟩

/-- The element at `np_argmin` is a lower bound of the list. -/
theorem np_argmin_le_mem (xs : List ℝ) (h : xs ≠ []) :
    ∀ y ∈ xs, xs.getD (np_argmin xs) 0 ≤ y := by
  intro y hy
  have hlt : xs.findIdx (fun x => decide (∀ y ∈ xs, x ≤ y)) < xs.length :=
    np_argmin_lt_length xs h
  have hp := @List.findIdx_getElem ℝ (fun x => decide (∀ y ∈ xs, x ≤ y)) xs hlt
  simp only [decide_eq_true_eq] at hp
  have hg : xs.getD (np_argmin xs) 0
      = xs.get ⟨xs.findIdx (fun x => decide (∀ y ∈ xs, x ≤ y)), hlt⟩ := by
    rw [List.get_eq_getElem]
    exact List.getD_eq_getElem _ _ hlt
  rw [hg, List.get_eq_getElem]
  exact hp y hy

/-- Indices before `np_argmin` hold strictly larger values: `np_argmin` is
the FIRST index achieving the minimum. -/
theorem np_argmin_first (xs : List ℝ) (h : xs ≠ []) :
    ∀ k, k < np_argmin xs → xs.getD (np_argmin xs) 0 < xs.getD k 0 := by
  intro k hk
  have hlt : np_argmin xs < xs.length := np_argmin_lt_length xs h
  have hklen : k < xs.length := lt_trans hk hlt
  have hk2 : k < xs.findIdx (fun x => decide (∀ y ∈ xs, x ≤ y)) := hk
  have hfalse := List.not_of_lt_findIdx hk2
  rw [decide_eq_false_iff_not] at hfalse
  push_neg at hfalse
  obtain ⟨y, hy, hylt⟩ := hfalse
  have hmin := np_argmin_le_mem xs h y hy
  have hgk : xs.getD k 0 = xs.get ⟨k, hklen⟩ := by
    rw [List.get_eq_getElem]
    exact List.getD_eq_getElem _ _ hklen
  rw [hgk, List.get_eq_getElem]
  exact lt_of_le_of_lt hmin hylt

/-- `getD` through the `|· - C0|` map used by the onehot branch. -/
theorem getD_map_abs (C0 : ℝ) (delays : List ℝ) (k : ℕ) (hk : k < delays.length) :
    (delays.map fun d => |d - C0|).getD k 0 = |delays.getD k 0 - C0| := by
  have hk2 : k < (delays.map fun d => |d - C0|).length := by
    rw [List.length_map]
    exact hk
  rw [List.getD_eq_getElem _ _ hk2, List.getD_eq_getElem _ _ hk]
  simp

/-- Claim C8: for a scalar `C0` and a nonempty delay list, the onehot
weights put weight `1` on exactly one valid delay index and `0` on every
other index, and that index is the first minimizer of `|delays[k] - C0|`. -/
theorem onehot_weights_spec (C0 : ℝ) (delays : List ℝ) (h : delays ≠ []) :
    np_argmin (delays.map fun d => |d - C0|) < delays.length ∧
    onehot_weights C0 delays (np_argmin (delays.map fun d => |d - C0|)) = 1 ∧
    (∀ k, k ≠ np_argmin (delays.map fun d => |d - C0|) →
      onehot_weights C0 delays k = 0) ∧
    (∀ k < delays.length,
      |delays.getD (np_argmin (delays.map fun d => |d - C0|)) 0 - C0|
        ≤ |delays.getD k 0 - C0|) ∧
    (∀ k < np_argmin (delays.map fun d => |d - C0|),
      |delays.getD (np_argmin (delays.map fun d => |d - C0|)) 0 - C0|
        < |delays.getD k 0 - C0|) := by
  have hne : (delays.map fun d => |d - C0|) ≠ [] := by
    intro hmap
    exact h (List.map_eq_nil.mp hmap)
  have hamlt : np_argmin (delays.map fun d => |d - C0|)
      < (delays.map fun d => |d - C0|).length :=
    np_argmin_lt_length _ hne
  have hamlen : np_argmin (delays.map fun d => |d - C0|) < delays.length := by
    rw [List.length_map] at hamlt
    exact hamlt
  refine ⟨hamlen, ?_, ?_, ?_, ?_⟩
  · unfold onehot_weights
    rw [if_pos rfl]
  · intro k hkne
    unfold onehot_weights
    rw [if_neg hkne]
  · intro k hk
    have hmem : delays.getD k 0 ∈ delays := by
      rw [List.getD_eq_getElem _ _ hk]
      exact List.getElem_mem _
    have habs : |delays.getD k 0 - C0| ∈ (delays.map fun d => |d - C0|) :=
      List.mem_map_of_mem _ hmem
    have := np_argmin_le_mem _ hne _ habs
    rw [getD_map_abs C0 delays _ hamlen] at this
    exact this
  · intro k hk
    have hklen : k < delays.length := lt_trans hk hamlen
    have := np_argmin_first _ hne k hk
    rw [getD_map_abs C0 delays _ hamlen, getD_map_abs C0 delays _ hklen] at this
    exact this

/-- Witness for C8 at `C0 = 0` and `delays = [2, 0, 1]`. -/
theorem onehot_weights_spec_witness :
    np_argmin (([2, 0, 1] : List ℝ).map fun d => |d - 0|) < ([2, 0, 1] : List ℝ).length ∧
    onehot_weights 0 [2, 0, 1] (np_argmin (([2, 0, 1] : List ℝ).map fun d => |d - 0|)) = 1 ∧
    (∀ k, k ≠ np_argmin (([2, 0, 1] : List ℝ).map fun d => |d - 0|) →
      onehot_weights 0 [2, 0, 1] k = 0) ∧
    (∀ k < ([2, 0, 1] : List ℝ).length,
      |([2, 0, 1] : List ℝ).getD (np_argmin (([2, 0, 1] : List ℝ).map fun d => |d - 0|)) 0 - 0|
        ≤ |([2, 0, 1] : List ℝ).getD k 0 - 0|) ∧
    (∀ k < np_argmin (([2, 0, 1] : List ℝ).map fun d => |d - 0|),
      |([2, 0, 1] : List ℝ).getD (np_argmin (([2, 0, 1] : List ℝ).map fun d => |d - 0|)) 0 - 0|
        < |([2, 0, 1] : List ℝ).getD k 0 - 0|) :=
  onehot_weights_spec 0 [2, 0, 1] (by simp)

end Recon
